import Mathlib

/-!
Verification development for the streaming chat turn orchestrator of the
base-project repository.  Each definition below is a shallow embedding of a
function of the Python source; the file and line numbers of the embedded code
are given next to each definition.  Strings are modelled as lists of
characters so that prefix / substring reasoning stays elementary.
-/

namespace BaseProject

/-! ## Stream reconciliation (src/app/services/chat_service.py, lines 656-664)

The string-chunk branch of the chunk loop in ChatService.chat_stream:

    if content_buffer and chunk.startswith(content_buffer):
        content_buffer = chunk        -- cumulative mode: replace
    else:
        content_buffer += chunk       -- delta mode: append
-/

/-- One reconciliation step of the chunk loop: if the buffer is non-empty and
the chunk starts with the buffer, the chunk replaces the buffer (cumulative
mode); otherwise the chunk is appended (delta mode). -/
def reconcile (buffer chunk : List Char) : List Char :=
  if !buffer.isEmpty && buffer.isPrefixOf chunk then chunk else buffer ++ chunk

/-- Running the reconciliation step over a whole chunk sequence, starting from
the empty accumulated text (content_buffer = "" at turn start, line 135). -/
def reconcileAll (chunks : List (List Char)) : List Char :=
  chunks.foldl reconcile []

/-- A chunk sequence is delta-safe from a given buffer when no chunk arrives
while the accumulated text is a non-empty prefix of it, i.e. the cumulative
branch of the heuristic is never (mis)taken. -/
def deltaSafe (buf : List Char) : List (List Char) → Bool
  | [] => true
  | c :: cs => !(!buf.isEmpty && buf.isPrefixOf c) && deltaSafe (buf ++ c) cs

/-- A chunk sequence is strictly cumulative from a given buffer when every
chunk is a proper prefix-extension of the accumulated text before it. -/
def strictCumulative (buf : List Char) : List (List Char) → Bool
  | [] => true
  | c :: cs => (buf.isPrefixOf c && buf != c) && strictCumulative c cs

theorem reconcile_of_not_taken {buf c : List Char}
    (h : (!buf.isEmpty && buf.isPrefixOf c) = false) :
    reconcile buf c = buf ++ c := by
  simp [reconcile, h]

theorem reconcile_extends (buf c : List Char) : buf <+: reconcile buf c := by
  unfold reconcile
  by_cases h : (!buf.isEmpty && buf.isPrefixOf c) = true
  · simp only [h, if_true]
    exact List.isPrefixOf_iff_prefix.mp (by
      have := And.right (Bool.and_eq_true_iff.mp h)
      exact this)
  · simp only [Bool.not_eq_true] at h
    simp only [h, Bool.false_eq_true, if_false]
    exact List.prefix_append buf c

theorem reconcile_strict {buf c : List Char}
    (hp : buf.isPrefixOf c = true) (hne : (buf != c) = true) :
    reconcile buf c = c := by
  unfold reconcile
  by_cases hb : buf.isEmpty
  · have hbuf : buf = [] := by simpa [List.isEmpty_iff] using hb
    subst hbuf
    simp
  · have : (!buf.isEmpty && buf.isPrefixOf c) = true := by
      simp [hb, hp]
    simp [this]

theorem foldl_reconcile_delta (chunks : List (List Char)) :
    ∀ buf, deltaSafe buf chunks = true →
      chunks.foldl reconcile buf = buf ++ chunks.flatten := by
  induction chunks with
  | nil => intro buf _; simp
  | cons c cs ih =>
    intro buf h
    have h' := Bool.and_eq_true_iff.mp h
    have hfalse : (!buf.isEmpty && buf.isPrefixOf c) = false := by
      have := h'.1
      revert this
      cases (!buf.isEmpty && buf.isPrefixOf c) <;> simp
    have hstep : reconcile buf c = buf ++ c := reconcile_of_not_taken hfalse
    have := ih (buf ++ c) h'.2
    simp only [List.foldl_cons, hstep, this, List.flatten_cons, List.append_assoc]

theorem foldl_reconcile_cumulative (chunks : List (List Char)) :
    ∀ buf, chunks ≠ [] → strictCumulative buf chunks = true →
      chunks.foldl reconcile buf = chunks.getLastD [] := by
  induction chunks with
  | nil => intro buf h _; exact absurd rfl h
  | cons c cs ih =>
    intro buf _ h
    have h' := Bool.and_eq_true_iff.mp h
    have h'' := Bool.and_eq_true_iff.mp h'.1
    have hstep : reconcile buf c = c := reconcile_strict h''.1 h''.2
    cases cs with
    | nil => simp [hstep]
    | cons d ds =>
      have := ih c (by simp) h'.2
      simp only [List.foldl_cons, hstep, this]
      simp [List.getLastD]

/-- Claim C2 (counterexample): the claim says that for every finite sequence of
delta chunks the accumulated text equals the concatenation of the chunks in
order.  It fails on the delta sequence ["a", "ab"]: the second delta happens to
start with the accumulated text "a", so the heuristic takes the cumulative
branch and replaces the buffer, yielding "ab" instead of the concatenation
"aab". -/
theorem C2_counterexample :
    reconcileAll [['a'], ['a', 'b']] ≠ ([['a'], ['a', 'b']] : List (List Char)).flatten := by
  decide

/-- Claim C2 (amended): for every finite sequence of delta chunks in which no
chunk arrives as a prefix-extension of the non-empty accumulated text before it
(so the cumulative branch of the reconciliation heuristic is never taken),
running the reconciliation step on each chunk in order leaves the accumulated
text equal to the concatenation of all the chunks in arrival order. -/
theorem C2_delta_concatenation (chunks : List (List Char))
    (h : deltaSafe [] chunks = true) :
    reconcileAll chunks = chunks.flatten := by
  have := foldl_reconcile_delta chunks [] h
  simpa [reconcileAll] using this

theorem C2_delta_concatenation_witness :
    deltaSafe [] [['a'], ['b', 'c']] = true ∧
      reconcileAll [['a'], ['b', 'c']] = ([['a'], ['b', 'c']] : List (List Char)).flatten :=
  ⟨by decide, C2_delta_concatenation [['a'], ['b', 'c']] (by decide)⟩

/-- Claim C3: for every finite non-empty sequence of chunks in which each chunk
is a proper prefix-extension of the accumulated text before it, running the
reconciliation step on each chunk in order leaves the final accumulated text
exactly equal to the last chunk. -/
theorem C3_cumulative_convergence (chunks : List (List Char))
    (hne : chunks ≠ []) (h : strictCumulative [] chunks = true) :
    reconcileAll chunks = chunks.getLastD [] :=
  foldl_reconcile_cumulative chunks [] hne h

theorem C3_cumulative_convergence_witness :
    (([['h'], ['h', 'i'], ['h', 'i', '!']] : List (List Char)) ≠ [] ∧
        strictCumulative [] [['h'], ['h', 'i'], ['h', 'i', '!']] = true) ∧
      reconcileAll [['h'], ['h', 'i'], ['h', 'i', '!']] = ['h', 'i', '!'] :=
  ⟨⟨by decide, by decide⟩,
    C3_cumulative_convergence [['h'], ['h', 'i'], ['h', 'i', '!']] (by decide) (by decide)⟩

/-! ## Tag extraction (src/app/services/chat_service.py, lines 783-809)

ChatService._extract_emotion runs re.search with the pattern 『(.*?)』 and
ChatService._extract_action with 【(.*?)】 and each returns group(1) of the
match, or None.  re.search yields the leftmost match; the lazy group matches
the shortest stretch of characters other than a newline up to the first
closing bracket. -/

/-- Scan for the closing bracket of a match attempt: returns the characters up
to the first closing bracket, failing at a newline first (the dot of the
pattern does not match a newline) or at the end of the text. -/
def scanClose (cls : Char) : List Char → Option (List Char)
  | [] => none
  | c :: rest =>
    if c = cls then some []
    else if c = '\n' then none
    else (scanClose cls rest).map (c :: ·)

/-- Leftmost-match semantics of re.search for a pattern opn(lazy dots)cls:
at each opening bracket, try to complete a match; on failure resume scanning
at the next character. -/
def extractBetween (opn cls : Char) : List Char → Option (List Char)
  | [] => none
  | c :: rest =>
    if c = opn then
      match scanClose cls rest with
      | some inner => some inner
      | none => extractBetween opn cls rest
    else extractBetween opn cls rest

/-- Embedding of ChatService._extract_emotion (lines 783-795). -/
def extract_emotion (text : List Char) : Option (List Char) :=
  extractBetween '『' '』' text

/-- Embedding of ChatService._extract_action (lines 797-809). -/
def extract_action (text : List Char) : Option (List Char) :=
  extractBetween '【' '】' text

/-- Modelled from the claim text for comparison: the values of the successive
(leftmost, non-overlapping) occurrences of the bracket convention in the text,
in order; the value of the most recent occurrence is the last element. -/
def tagOccurrences (opn cls : Char) : List Char → List (List Char)
  | [] => []
  | c :: rest =>
    if c = opn then
      match scanClose cls rest with
      | some inner => inner :: tagOccurrences opn cls (rest.drop (inner.length + 1))
      | none => tagOccurrences opn cls rest
    else tagOccurrences opn cls rest
termination_by t => t.length
decreasing_by
  all_goals simp [List.length_drop]
  all_goals omega

theorem extractBetween_eq_head (opn cls : Char) :
    ∀ text : List Char, extractBetween opn cls text = (tagOccurrences opn cls text).head? := by
  intro text
  induction text with
  | nil => simp [extractBetween, tagOccurrences]
  | cons c rest ih =>
    rw [extractBetween, tagOccurrences]
    by_cases hop : c = opn
    · simp only [hop, if_true]
      cases h : scanClose cls rest with
      | some inner => simp
      | none => simpa using ih
    · simpa [hop] using ih

/-- Claim C5 (counterexample): the claim says tag extraction returns the value
of the most recent (last) occurrence of the bracket convention.  On the text
『a』x『b』 the occurrences are a then b, so the most recent value is b, yet
the extraction (re.search, leftmost match) returns a. -/
theorem C5_counterexample :
    extract_emotion ['『', 'a', '』', 'x', '『', 'b', '』'] = some ['a'] ∧
      (tagOccurrences '『' '』' ['『', 'a', '』', 'x', '『', 'b', '』']).getLast? =
        some ['b'] ∧
      some ['a'] ≠ some ['b'] := by
  refine ⟨by decide, ?_, by decide⟩
  simp [tagOccurrences, scanClose]

/-- Claim C5 (amended): for every accumulated text, emotion-tag extraction
(resp. action-tag extraction) returns the value of the first (earliest)
occurrence of the bracket convention 『…』 (resp. 【…】) in the text, not the
most recent one: it equals the head of the occurrence list. -/
theorem C5_first_tag_extraction (text : List Char) :
    extract_emotion text = (tagOccurrences '『' '』' text).head? ∧
      extract_action text = (tagOccurrences '【' '】' text).head? :=
  ⟨extractBetween_eq_head '『' '』' text, extractBetween_eq_head '【' '】' text⟩

/-! ## The chunk loop of the turn (src/app/services/chat_service.py, lines 547-719)

The loop over chunks of llm_service.generate_stream.  A chunk is either a dict
carrying a content field (lines 599-655, with one branch for model_type
deepseek and one for the other models), a raw string (lines 656-696, the
reconciliation branch), or a chunk the loop does not turn into content events
(a function-call chunk intercepted at lines 551-594, or a dict without
content).  Each content-emitting branch writes the accumulated text into
sent_content_cache[request_id] and yields emotion / action events
edge-triggered before the content event. -/

inductive ModelType where
  | deepseek
  | other
deriving DecidableEq

inductive Chunk where
  /-- A dict chunk with a content field, not intercepted as a function call. -/
  | dict (content : List Char)
  /-- A raw string chunk. -/
  | str (s : List Char)
  /-- A chunk that produces no content event in the main loop: a function-call
  chunk intercepted at lines 551-594, or a dict without a content field. -/
  | skip
deriving DecidableEq

/-- The per-turn mutable state of the loop: content_buffer (line 135),
last_emotion / last_action (lines 147-148) and the per-request entry of
sent_content_cache (none = key absent). -/
structure LoopState where
  buffer : List Char
  lastEmotion : Option (List Char)
  lastAction : Option (List Char)
  cacheEntry : Option (List Char)
deriving DecidableEq

def initState : LoopState := ⟨[], none, none, none⟩

inductive Ev where
  | emotion (e : List Char)
  | action (a : List Char)
  | content (c : List Char)
deriving DecidableEq

/-- Edge-triggered emotion emission (lines 605-613 etc.): emit only when a
non-empty emotion is extracted that differs from the previous one (the Python
test `if extracted_emotion and extracted_emotion != last_emotion` is false for
the empty string, which is falsy). -/
def emoStep (txt : List Char) (last : Option (List Char)) :
    Option (List Char) × List Ev :=
  match extract_emotion txt with
  | some e => if e ≠ [] ∧ some e ≠ last then (some e, [Ev.emotion e]) else (last, [])
  | none => (last, [])

/-- Edge-triggered action emission (lines 614-622 etc.). -/
def actStep (txt : List Char) (last : Option (List Char)) :
    Option (List Char) × List Ev :=
  match extract_action txt with
  | some a => if a ≠ [] ∧ some a ≠ last then (some a, [Ev.action a]) else (last, [])
  | none => (last, [])

/-- One iteration of the chunk loop (lines 596-696).
dict chunk, model deepseek (600-627): append to content_buffer, cache it,
extract tags from the buffer, emit the accumulated buffer.
dict chunk, other models (628-655): the content field is forwarded verbatim
as current_text; content_buffer is not touched.
string chunk (656-696): reconcile into content_buffer, cache it, extract tags
from the buffer, emit the accumulated buffer. -/
def processChunk (mt : ModelType) (st : LoopState) : Chunk → LoopState × List Ev
  | Chunk.skip => (st, [])
  | Chunk.dict c =>
    match mt with
    | ModelType.deepseek =>
      let buf := st.buffer ++ c
      let em := emoStep buf st.lastEmotion
      let ac := actStep buf st.lastAction
      (⟨buf, em.1, ac.1, some buf⟩, em.2 ++ ac.2 ++ [Ev.content buf])
    | ModelType.other =>
      let em := emoStep c st.lastEmotion
      let ac := actStep c st.lastAction
      (⟨st.buffer, em.1, ac.1, some c⟩, em.2 ++ ac.2 ++ [Ev.content c])
  | Chunk.str s =>
    let buf := reconcile st.buffer s
    let em := emoStep buf st.lastEmotion
    let ac := actStep buf st.lastAction
    (⟨buf, em.1, ac.1, some buf⟩, em.2 ++ ac.2 ++ [Ev.content buf])

/-- The whole chunk loop in arrival order. -/
def processChunks (mt : ModelType) (st : LoopState) : List Chunk → LoopState × List Ev
  | [] => (st, [])
  | c :: cs =>
    let step := processChunk mt st c
    let rest := processChunks mt step.1 cs
    (rest.1, step.2 ++ rest.2)

def contentOf : Ev → Option (List Char)
  | Ev.content c => some c
  | _ => none

/-- The payloads of the content events of a turn, in emission order. -/
def contentPayloads (mt : ModelType) (chunks : List Chunk) : List (List Char) :=
  ((processChunks mt initState chunks).2).filterMap contentOf

/-- The accumulated text at the end of the chunk loop. -/
def finalBuffer (mt : ModelType) (chunks : List Chunk) : List Char :=
  ((processChunks mt initState chunks).1).buffer

def Chunk.isDict : Chunk → Bool
  | Chunk.dict _ => true
  | _ => false

theorem emoStep_no_content (txt : List Char) (last : Option (List Char)) :
    (emoStep txt last).2.filterMap contentOf = [] := by
  unfold emoStep
  cases extract_emotion txt with
  | none => rfl
  | some e =>
    by_cases h : e ≠ [] ∧ some e ≠ last <;> simp [h, contentOf]

theorem actStep_no_content (txt : List Char) (last : Option (List Char)) :
    (actStep txt last).2.filterMap contentOf = [] := by
  unfold actStep
  cases extract_action txt with
  | none => rfl
  | some a =>
    by_cases h : a ≠ [] ∧ some a ≠ last <;> simp [h, contentOf]

theorem payloads_chain (mt : ModelType) (chunks : List Chunk) :
    ∀ st : LoopState,
      (mt = ModelType.deepseek ∨ ∀ ch ∈ chunks, ch.isDict = false) →
      List.Chain' (· <+: ·)
          (st.buffer :: ((processChunks mt st chunks).2).filterMap contentOf) ∧
        (st.buffer :: ((processChunks mt st chunks).2).filterMap contentOf).getLast? =
          some ((processChunks mt st chunks).1).buffer := by
  induction chunks with
  | nil => intro st _; simp [processChunks]
  | cons c cs ih =>
    intro st hc
    have hcs : mt = ModelType.deepseek ∨ ∀ ch ∈ cs, ch.isDict = false := by
      rcases hc with h | h
      · exact Or.inl h
      · exact Or.inr fun ch hm => h ch (List.mem_cons_of_mem _ hm)
    cases c with
    | skip =>
      have := ih st hcs
      simpa [processChunks, processChunk] using this
    | str s =>
      have hext : st.buffer <+: reconcile st.buffer s := reconcile_extends st.buffer s
      have := ih ⟨reconcile st.buffer s,
        (emoStep (reconcile st.buffer s) st.lastEmotion).1,
        (actStep (reconcile st.buffer s) st.lastAction).1,
        some (reconcile st.buffer s)⟩ hcs
      constructor
      · simp only [processChunks, processChunk, List.filterMap_append,
          emoStep_no_content, actStep_no_content, List.filterMap_nil, List.nil_append, List.singleton_append, List.cons_append,
          List.filterMap_cons, contentOf]
        exact List.chain'_cons.mpr ⟨hext, this.1⟩
      · simp only [processChunks, processChunk, List.filterMap_append,
          emoStep_no_content, actStep_no_content, List.filterMap_nil, List.nil_append, List.singleton_append, List.cons_append,
          List.filterMap_cons, contentOf] at this ⊢
        rw [List.getLast?_cons_cons]
        exact this.2
    | dict cc =>
      have hdeep : mt = ModelType.deepseek := by
        rcases hc with h | h
        · exact h
        · exact absurd (h (Chunk.dict cc) (List.mem_cons_self _ _)) (by simp [Chunk.isDict])
      subst hdeep
      have hext : st.buffer <+: st.buffer ++ cc := List.prefix_append _ _
      have := ih ⟨st.buffer ++ cc,
        (emoStep (st.buffer ++ cc) st.lastEmotion).1,
        (actStep (st.buffer ++ cc) st.lastAction).1,
        some (st.buffer ++ cc)⟩ hcs
      constructor
      · simp only [processChunks, processChunk, List.filterMap_append,
          emoStep_no_content, actStep_no_content, List.filterMap_nil, List.nil_append, List.singleton_append, List.cons_append,
          List.filterMap_cons, contentOf]
        exact List.chain'_cons.mpr ⟨hext, this.1⟩
      · simp only [processChunks, processChunk, List.filterMap_append,
          emoStep_no_content, actStep_no_content, List.filterMap_nil, List.nil_append, List.singleton_append, List.cons_append,
          List.filterMap_cons, contentOf] at this ⊢
        rw [List.getLast?_cons_cons]
        exact this.2

/-- Claim C4 (counterexample): the claim says every content event carries the
full accumulated reply text produced so far (replacement semantics).  Since
the accumulated text only grows, a sequence of such payloads must be
prefix-monotone.  For a non-deepseek model type, dict chunks are forwarded
verbatim (lines 628-655) without touching content_buffer: on the dict chunks
"ab", "c" the emitted payloads are "ab" then "c" - the second event does not
contain the text already delivered, so it cannot be the full accumulated text
- and the accumulated buffer itself stays empty. -/
theorem C4_counterexample :
    contentPayloads ModelType.other [Chunk.dict ['a', 'b'], Chunk.dict ['c']] =
        [['a', 'b'], ['c']] ∧
      ¬ List.Chain' (· <+: ·)
          (([] : List Char) ::
            contentPayloads ModelType.other [Chunk.dict ['a', 'b'], Chunk.dict ['c']]) ∧
      finalBuffer ModelType.other [Chunk.dict ['a', 'b'], Chunk.dict ['c']] = [] := by
  have hp : contentPayloads ModelType.other [Chunk.dict ['a', 'b'], Chunk.dict ['c']] =
      [['a', 'b'], ['c']] := by decide
  refine ⟨hp, ?_, by decide⟩
  rw [hp]
  intro hch
  have h2 := (List.chain'_cons.mp ((List.chain'_cons.mp hch).2)).1
  rcases h2 with ⟨t, ht⟩
  injection ht with h1 _
  exact absurd h1 (by decide)

/-- Claim C4 (amended): on the paths where the orchestrator itself maintains
the accumulated text - every chunk sequence under model type deepseek, and
string-chunk sequences under any model type - each content event carries the
full accumulated text so far: the payload sequence grows monotonically by
prefix extension from the empty initial buffer, and the last content event
(or the initial empty text when there is none) carries exactly the final
accumulated text.  On the non-deepseek dict-chunk path the event instead
forwards the backend content field verbatim, which is the full text only for
a cumulative backend. -/
theorem C4_content_replacement (mt : ModelType) (chunks : List Chunk)
    (h : mt = ModelType.deepseek ∨ ∀ ch ∈ chunks, ch.isDict = false) :
    List.Chain' (· <+: ·) (([] : List Char) :: contentPayloads mt chunks) ∧
      (([] : List Char) :: contentPayloads mt chunks).getLast? =
        some (finalBuffer mt chunks) := by
  have := payloads_chain mt chunks initState h
  simpa [contentPayloads, finalBuffer, initState] using this

theorem C4_content_replacement_witness :
    (ModelType.other = ModelType.deepseek ∨
        ∀ ch ∈ [Chunk.str ['h'], Chunk.str ['h', 'i']], ch.isDict = false) ∧
      (List.Chain' (· <+: ·)
          (([] : List Char) ::
            contentPayloads ModelType.other [Chunk.str ['h'], Chunk.str ['h', 'i']]) ∧
        (([] : List Char) ::
            contentPayloads ModelType.other [Chunk.str ['h'], Chunk.str ['h', 'i']]).getLast? =
          some (finalBuffer ModelType.other [Chunk.str ['h'], Chunk.str ['h', 'i']])) :=
  ⟨by decide, C4_content_replacement ModelType.other [Chunk.str ['h'], Chunk.str ['h', 'i']]
    (by decide)⟩

/-! ## The per-turn output-cache entry (src/app/services/chat_service.py)

sent_content_cache[request_id] is written with the in-progress accumulated
text at every content-emitting iteration (lines 603, 631, 667).  On the
success path it is deleted after the completion event (lines 711-713:
`if request_id in self.sent_content_cache: del ...`).  The failure path is
the `except` block at lines 715-719, which yields an error event and returns
without deleting the entry - there is no finally block. -/

/-- Whether the sent_content_cache entry for the turn request id is still
present when the turn ends.  The raises flag models an exception escaping the
try block after the given chunks were processed (handled at lines 715-719);
when no exception escapes, lines 711-713 delete the entry. -/
def turnCachePresent (mt : ModelType) (chunks : List Chunk) (raises : Bool) : Bool :=
  let st := (processChunks mt initState chunks).1
  if raises then st.cacheEntry.isSome
  else false

/-- Claim C9 (code bug): the spec requires the per-turn output-cache entry to
be deleted on both the success and the failure path, and the code deletes it
only on the success path.  On any run that raises after a content chunk was
processed, the entry is still present at the end of the turn. -/
theorem C9_cache_leak_on_failure :
    (∀ (mt : ModelType) (chunks : List Chunk), turnCachePresent mt chunks false = false) ∧
      turnCachePresent ModelType.other [Chunk.dict ['你']] true = true := by
  refine ⟨fun mt chunks => rfl, by decide⟩

/-! ## Python string helpers used by the classifier and the role selector -/

/-- Python substring containment (the `in` operator): the needle occurs
contiguously in the haystack; the empty needle is contained in everything. -/
def containsSub (needle : List Char) : List Char → Bool
  | [] => needle.isEmpty
  | c :: t => needle.isPrefixOf (c :: t) || containsSub needle t

/-- Python str.lower, restricted to the ASCII case mapping.  The terms the
classifier searches for are Chinese, which Python lowercasing leaves
unchanged, so the restriction does not affect any comparison below. -/
def pyLower (s : List Char) : List Char := s.map Char.toLower

/-- Python str.strip: remove leading and trailing whitespace. -/
def pyStrip (s : List Char) : List Char :=
  ((s.dropWhile Char.isWhitespace).reverse.dropWhile Char.isWhitespace).reverse

theorem containsSub_iff (needle : List Char) :
    ∀ hay : List Char, containsSub needle hay = true ↔ needle <:+: hay := by
  intro hay
  induction hay with
  | nil =>
    simp [containsSub, List.isEmpty_iff]
  | cons c t ih =>
    rw [containsSub]
    simp only [Bool.or_eq_true, List.isPrefixOf_iff_prefix, ih, List.infix_cons_iff]

theorem pyStrip_sub (s : List Char) : pyStrip s <:+: s := by
  have h1 : s.dropWhile Char.isWhitespace <:+ s := List.dropWhile_suffix _
  have h2 : (s.dropWhile Char.isWhitespace).reverse.dropWhile Char.isWhitespace <:+
      (s.dropWhile Char.isWhitespace).reverse := List.dropWhile_suffix _
  have h3 : pyStrip s <+: s.dropWhile Char.isWhitespace := by
    have := List.reverse_prefix.mpr h2
    rwa [List.reverse_reverse] at this
  obtain ⟨t, ht⟩ := h3
  obtain ⟨u, hu⟩ := h1
  exact ⟨u, t, by rw [List.append_assoc, ht, hu]⟩

theorem containsSub_strip_false {n s : List Char} (h : containsSub n s = false) :
    containsSub n (pyStrip s) = false := by
  cases hc : containsSub n (pyStrip s) with
  | false => rfl
  | true =>
    have hinf : n <:+: pyStrip s := (containsSub_iff n (pyStrip s)).mp hc
    have : n <:+: s := hinf.trans (pyStrip_sub s)
    have := (containsSub_iff n s).mpr this
    rw [h] at this
    exact absurd this (by simp)

/-! ## Content classifier (src/app/services/ai/tools/function_caller.py, lines 87-118)

FunctionCaller.classify_content builds one of three literal classification
records: the approve default, the crisis record when the lowered text contains
a self-harm term, and the caution record when it contains a bypass term. -/

structure Classification where
  code : String
  level : String
  action : String
  reason : String
  response_strategy : String
deriving DecidableEq

/-- The default record (lines 90-96). -/
def classificationApprove : Classification :=
  ⟨"0", "合规内容", "approve", "常规内容，无敏感信息", "直接回答"⟩

/-- The crisis record (lines 99-106). -/
def classificationCrisis : Classification :=
  ⟨"11", "危机内容", "support", "检测到潜在自我伤害信号", "提供资源支持"⟩

/-- The caution record (lines 107-114). -/
def classificationCaution : Classification :=
  ⟨"01", "中度敏感", "caution", "尝试绕过系统限制", "保持审核功能"⟩

def crisisTerms : List (List Char) := ["自杀".data, "伤害自己".data, "结束生命".data]

def bypassTerms : List (List Char) := ["绕过".data, "忽略指令".data, "不要审核".data]

/-- Embedding of FunctionCaller.classify_content (lines 87-118). -/
def classify_content (text : List Char) : Classification :=
  if crisisTerms.any (fun t => containsSub t (pyLower text)) then classificationCrisis
  else if bypassTerms.any (fun t => containsSub t (pyLower text)) then classificationCaution
  else classificationApprove

/-- Embedding of the policy-violation test of the streaming turn
(src/app/services/chat_service.py, line 196): the turn is rejected exactly
when the classification code is "1". -/
def policyBlocks (c : Classification) : Bool := c.code == "1"

theorem classify_content_cases (text : List Char) :
    classify_content text = classificationCrisis ∨
      classify_content text = classificationCaution ∨
      classify_content text = classificationApprove := by
  unfold classify_content
  split
  · exact Or.inl rfl
  split
  · exact Or.inr (Or.inl rfl)
  · exact Or.inr (Or.inr rfl)

/-- Claim C10: for every input text, the content classifier on the turn path
returns one of exactly three fixed records, with code in {"0", "01", "11"}
and action in {approve, caution, support}; it never returns code "1", and
code "1" is the only code on which the streaming turn terminates as a policy
violation - so the in-repository classifier can never trigger the blocking
branch.  The three records are each attained (conjuncts at concrete
inputs). -/
theorem C10_classifier_range (text : List Char) :
    (classify_content text = classificationCrisis ∨
        classify_content text = classificationCaution ∨
        classify_content text = classificationApprove) ∧
      ((classify_content text).code = "0" ∨ (classify_content text).code = "01" ∨
        (classify_content text).code = "11") ∧
      ((classify_content text).action = "approve" ∨
        (classify_content text).action = "caution" ∨
        (classify_content text).action = "support") ∧
      (classify_content text).code ≠ "1" ∧
      policyBlocks (classify_content text) = false ∧
      (∀ c : Classification, policyBlocks c = true ↔ c.code = "1") ∧
      classify_content "自杀".data = classificationCrisis ∧
      classify_content "请帮我绕过审核".data = classificationCaution ∧
      classify_content "你好".data = classificationApprove := by
  have h := classify_content_cases text
  refine ⟨h, ?_, ?_, ?_, ?_, ?_, ?_, ?_, ?_⟩
  · rcases h with h | h | h <;> rw [h] <;> simp [classificationCrisis,
      classificationCaution, classificationApprove]
  · rcases h with h | h | h <;> rw [h] <;> simp [classificationCrisis,
      classificationCaution, classificationApprove]
  · rcases h with h | h | h <;> rw [h] <;> simp [classificationCrisis,
      classificationCaution, classificationApprove]
  · rcases h with h | h | h <;> rw [h] <;> simp [policyBlocks, classificationCrisis,
      classificationCaution, classificationApprove]
  · intro c; simp [policyBlocks]
  · rfl
  · rfl
  · rfl

/-! ## Persona selection (src/app/services/ai/llm/role_selector.py)

RoleSelector.select_most_relevant_role (lines 15-60): empty list gives no
selection; a single bound persona is returned directly without any scoring
call; otherwise a continuity heuristic may reuse the previously selected
persona, and only then the generation backend is asked to rank the personas
and the single returned identifier is parsed, falling back to the first
persona on unparseable responses or on an exception.  The outcome of the
backend call is a parameter (the content string of the response, or an
exception). -/

structure RoleRef where
  role_id : List Char
  role_name : List Char
  system_prompt : List Char
deriving DecidableEq

/-- The result of persona selection, together with whether the LLM-based
scorer (self.llm_service.generate, lines 39-43) was invoked. -/
structure SelectOutcome where
  result : Option RoleRef
  llmCalled : Bool
deriving DecidableEq

def pronounTerms : List (List Char) :=
  ["你们".data, "你".data, "您".data, "汝".data, "尔".data, "阁下".data]

def followUpStarts : List (List Char) :=
  ["为什么".data, "怎么办".data, "然后呢".data, "还有呢".data, "继续".data,
    "详细说说".data, "那么".data, "所以".data]

/-- The tail admitted by the follow-up pattern: at most ten characters none of
which is a newline, modulo the final-newline convention of the dollar
anchor. -/
def remainderOk (r : List Char) : Bool :=
  let core := if r.getLast? = some '\n' then r.dropLast else r
  core.length ≤ 10 && !(core.contains '\n')

/-- Embedding of RoleSelector._should_continue_with_last_role (lines 62-81). -/
def shouldContinueWithLastRole (message : List Char) (chatHistory : List (List Char))
    (lastSelected : Option RoleRef) : Bool :=
  if chatHistory.isEmpty || lastSelected.isNone then false
  else if pronounTerms.any (fun p => containsSub p message) then true
  else if followUpStarts.any
      (fun a => a.isPrefixOf message && remainderOk (message.drop a.length)) then true
  else false

/-- Embedding of RoleSelector._parse_role_selection (lines 135-147): strip the
response, return the id of the first bound persona whose id occurs in it, and
fall back to the id of the first persona.  The caller guarantees a non-empty
persona list; the empty case is vacuous. -/
def parseRoleSelection (response : List Char) (roles : List RoleRef) : List Char :=
  let cleaned := pyStrip response
  match roles.find? (fun r => containsSub r.role_id cleaned) with
  | some r => r.role_id
  | none =>
    match roles with
    | [] => []
    | r0 :: _ => r0.role_id

/-- The continuity reuse of lines 27-32: when a persona was selected before
and the continuity heuristic fires, reuse the bound persona with the same id
(if any). -/
def continuityChoice (message : List Char) (chatHistory : List (List Char))
    (lastSelected : Option RoleRef) (roles : List RoleRef) : Option RoleRef :=
  match lastSelected with
  | some last =>
    if shouldContinueWithLastRole message chatHistory (some last) then
      roles.find? (fun r => r.role_id == last.role_id)
    else none
  | none => none

/-- The ranking stage (lines 37-60): ask the backend, parse the returned
identifier, select the first persona carrying it; an exception falls back to
the first persona. -/
def rankingOutcome (r0 : RoleRef) (rest : List RoleRef)
    (llmResponse : Except Unit (List Char)) : SelectOutcome :=
  match llmResponse with
  | Except.error _ => ⟨some r0, true⟩
  | Except.ok content =>
    match (r0 :: rest).find?
        (fun r => r.role_id == parseRoleSelection content (r0 :: rest)) with
    | some r => ⟨some r, true⟩
    | none => ⟨some r0, true⟩

/-- Embedding of RoleSelector.select_most_relevant_role (lines 15-60).
llmResponse is the outcome of the ranking call: the content string of the
response of self.llm_service.generate, or an exception. -/
def select_most_relevant_role (message : List Char) (roles : List RoleRef)
    (chatHistory : List (List Char)) (lastSelected : Option RoleRef)
    (llmResponse : Except Unit (List Char)) : SelectOutcome :=
  match roles with
  | [] => ⟨none, false⟩
  | r0 :: rest =>
    if rest.isEmpty then ⟨some r0, false⟩
    else
      match continuityChoice message chatHistory lastSelected (r0 :: rest) with
      | some r => ⟨some r, false⟩
      | none => rankingOutcome r0 rest llmResponse

theorem continuityChoice_mem {message : List Char} {chatHistory : List (List Char)}
    {lastSelected : Option RoleRef} {roles : List RoleRef} {rc : RoleRef}
    (h : continuityChoice message chatHistory lastSelected roles = some rc) :
    rc ∈ roles := by
  unfold continuityChoice at h
  cases lastSelected with
  | none => simp at h
  | some last =>
    by_cases hsc : shouldContinueWithLastRole message chatHistory (some last) = true
    · simp only [hsc, if_true] at h
      exact List.mem_of_find?_eq_some h
    · simp [hsc] at h

theorem select_cons_ne {message : List Char} {chatHistory : List (List Char)}
    {lastSelected : Option RoleRef} {llmResponse : Except Unit (List Char)}
    {r0 : RoleRef} {rest : List RoleRef} (hrest : rest.isEmpty = false) :
    select_most_relevant_role message (r0 :: rest) chatHistory lastSelected llmResponse =
      match continuityChoice message chatHistory lastSelected (r0 :: rest) with
      | some r => ⟨some r, false⟩
      | none => rankingOutcome r0 rest llmResponse := by
  have hsel : select_most_relevant_role message (r0 :: rest) chatHistory lastSelected
        llmResponse
      = if rest.isEmpty then ⟨some r0, false⟩
        else
          match continuityChoice message chatHistory lastSelected (r0 :: rest) with
          | some r => ⟨some r, false⟩
          | none => rankingOutcome r0 rest llmResponse := rfl
  rw [hsel, hrest]
  simp

theorem rankingOutcome_ok_eq (r0 : RoleRef) (rest : List RoleRef) (content : List Char) :
    rankingOutcome r0 rest (Except.ok content) =
      match (r0 :: rest).find?
          (fun r => r.role_id == parseRoleSelection content (r0 :: rest)) with
      | some r => ⟨some r, true⟩
      | none => ⟨some r0, true⟩ := rfl

/-- Claim C8: for every session with exactly one bound persona and every
message (and any history, continuity state and backend behaviour), persona
selection returns that persona without invoking the LLM-based scorer. -/
theorem C8_single_role_trivial (r : RoleRef) (message : List Char)
    (chatHistory : List (List Char)) (lastSelected : Option RoleRef)
    (llmResponse : Except Unit (List Char)) :
    select_most_relevant_role message [r] chatHistory lastSelected llmResponse =
      ⟨some r, false⟩ := by
  rfl

/-- Claim C7: for every non-empty list of bound personas, persona selection
returns some persona from the list; and whenever the ranking call was made,
an erroring call or a response containing no bound persona id yields the
first bound persona. -/
theorem C7_selection_total_fallback (message : List Char) (roles : List RoleRef)
    (chatHistory : List (List Char)) (lastSelected : Option RoleRef)
    (llmResponse : Except Unit (List Char)) (h : roles ≠ []) :
    (∃ r ∈ roles,
        (select_most_relevant_role message roles chatHistory lastSelected
            llmResponse).result = some r) ∧
      ((select_most_relevant_role message roles chatHistory lastSelected
            llmResponse).llmCalled = true →
        (llmResponse = Except.error () ∨
          ∃ s, llmResponse = Except.ok s ∧
            ∀ r ∈ roles, containsSub r.role_id s = false) →
        (select_most_relevant_role message roles chatHistory lastSelected
            llmResponse).result = roles.head?) := by
  match roles with
  | [] => exact absurd rfl h
  | r0 :: rest =>
    by_cases hrest : rest.isEmpty = true
    · have hr : rest = [] := by simpa [List.isEmpty_iff] using hrest
      subst hr
      exact ⟨⟨r0, List.mem_cons_self _ _, rfl⟩,
        fun hcall _ => absurd hcall (by simp [select_most_relevant_role])⟩
    · have hrest' : rest.isEmpty = false := by simpa using hrest
      rw [select_cons_ne hrest']
      cases hcc : continuityChoice message chatHistory lastSelected (r0 :: rest) with
      | some rc =>
        exact ⟨⟨rc, continuityChoice_mem hcc, rfl⟩, fun hcall _ => absurd hcall (by simp)⟩
      | none =>
        cases llmResponse with
        | error e =>
          cases e
          exact ⟨⟨r0, List.mem_cons_self _ _, rfl⟩, fun _ _ => rfl⟩
        | ok content =>
          rw [rankingOutcome_ok_eq]
          cases hfind : (r0 :: rest).find?
              (fun r => r.role_id == parseRoleSelection content (r0 :: rest)) with
          | some rf =>
            refine ⟨⟨rf, List.mem_of_find?_eq_some hfind, rfl⟩, fun _ hui => ?_⟩
            rcases hui with hui | ⟨s, hs, hnone⟩
            · simp at hui
            · injection hs with hs
              subst hs
              have hnostrip : ∀ r ∈ r0 :: rest,
                  containsSub r.role_id (pyStrip content) = false :=
                fun r hr => containsSub_strip_false (hnone r hr)
              have hparse : parseRoleSelection content (r0 :: rest) = r0.role_id := by
                unfold parseRoleSelection
                have hnone2 : (r0 :: rest).find?
                    (fun r => containsSub r.role_id (pyStrip content)) = none := by
                  rw [List.find?_eq_none]
                  intro r hr
                  simp [hnostrip r hr]
                simp [hnone2]
              rw [hparse] at hfind
              have hself : (r0 :: rest).find? (fun r => r.role_id == r0.role_id) = some r0 :=
                List.find?_cons_of_pos _ (by simp)
              rw [hself] at hfind
              injection hfind with hf
              subst hf
              rfl
          | none =>
            exact ⟨⟨r0, List.mem_cons_self _ _, rfl⟩, fun _ _ => rfl⟩

theorem C7_selection_total_fallback_witness :
    ((([⟨['a'], ['A'], []⟩, ⟨['b'], ['B'], []⟩] : List RoleRef) ≠ []) ∧
      (∃ r ∈ ([⟨['a'], ['A'], []⟩, ⟨['b'], ['B'], []⟩] : List RoleRef),
          (select_most_relevant_role ['x'] [⟨['a'], ['A'], []⟩, ⟨['b'], ['B'], []⟩] []
              none (Except.error ())).result = some r) ∧
        ((select_most_relevant_role ['x'] [⟨['a'], ['A'], []⟩, ⟨['b'], ['B'], []⟩] []
              none (Except.error ())).llmCalled = true →
          ((Except.error () : Except Unit (List Char)) = Except.error () ∨
            ∃ s, (Except.error () : Except Unit (List Char)) = Except.ok s ∧
              ∀ r ∈ ([⟨['a'], ['A'], []⟩, ⟨['b'], ['B'], []⟩] : List RoleRef),
                containsSub r.role_id s = false) →
          (select_most_relevant_role ['x'] [⟨['a'], ['A'], []⟩, ⟨['b'], ['B'], []⟩] []
              none (Except.error ())).result =
            ([⟨['a'], ['A'], []⟩, ⟨['b'], ['B'], []⟩] : List RoleRef).head?)) :=
  ⟨by decide,
    C7_selection_total_fallback ['x'] [⟨['a'], ['A'], []⟩, ⟨['b'], ['B'], []⟩] [] none
      (Except.error ()) (by decide)⟩

/-! ## Conversation context construction
(src/app/services/ai/memory/memory_service.py, lines 112-171, and
src/app/services/ai/memory/redis_memory.py, lines 78-117)

RedisMemory.get_messages wraps the whole read in try/except and returns [] on
any store failure; individual entries that fail json.loads are skipped.
MemoryService.build_message_history then touches each parsed entry without
any exception handling of its own: line 134 calls msg.get on the first five
entries (an AttributeError on a non-dict value), lines 139-142 read
msg["role"] on every entry and msg["content"] on the user/assistant ones
(KeyError when absent), and lines 146-148 read msg["content"] on the first
three entries whatever their role. -/

/-- A parsed stored entry: either a JSON value that is not an object, or an
object with optional role and content string fields (the fields the code
reads; msg.get used for the timestamp never raises). -/
inductive StoredVal where
  | nonDict
  | dict (role : Option String) (content : Option String)
deriving DecidableEq

/-- A raw entry of the hot store list: either a string json.loads rejects
(skipped by get_messages) or one it parses. -/
inductive RawEntry where
  | unparseable
  | parsed (v : StoredVal)
deriving DecidableEq

/-- Embedding of RedisMemory.get_messages (redis_memory.py, lines 78-117):
on a store failure the except block returns []; otherwise the last lim raw
entries are read (lrange from max 0 (length - limit) to length - 1) and the
unparseable ones are skipped. -/
def get_messages (storeFail : Bool) (lim : Nat) (raw : List RawEntry) : List StoredVal :=
  if storeFail then []
  else
    (raw.drop (raw.length - lim)).filterMap fun e =>
      match e with
      | RawEntry.unparseable => none
      | RawEntry.parsed v => some v

/-- One step of the formatting loop (memory_service.py, lines 137-142): read
msg["role"] (raising on a non-dict value or a missing key), keep user and
assistant entries together with msg["content"] (raising when absent), and
drop entries of any other role. -/
def formatEntry : StoredVal → Except Unit (Option (String × String))
  | StoredVal.nonDict => Except.error ()
  | StoredVal.dict none _ => Except.error ()
  | StoredVal.dict (some r) c =>
    if r = "user" then
      match c with
      | some cc => Except.ok (some ("user", cc))
      | none => Except.error ()
    else if r = "assistant" then
      match c with
      | some cc => Except.ok (some ("assistant", cc))
      | none => Except.error ()
    else Except.ok none

def formatAll : List StoredVal → Except Unit (List (String × String))
  | [] => Except.ok []
  | m :: ms =>
    match formatEntry m with
    | Except.error e => Except.error e
    | Except.ok o =>
      match formatAll ms with
      | Except.error e => Except.error e
      | Except.ok rest =>
        Except.ok (match o with
          | some x => x :: rest
          | none => rest)

/-- Whether an entry lacks the content field the preview loop of lines
146-148 reads unconditionally on the first three entries. -/
def lacksContent : StoredVal → Bool
  | StoredVal.dict _ none => true
  | _ => false

/-- Embedding of MemoryService.build_message_history (memory_service.py,
lines 112-171): an empty session id returns [] (line 122-124); the hot store
is read through get_messages; then the un-guarded dictionary accesses of
lines 134-148 either raise (modelled as Except.error) or produce the
formatted two-role history. -/
def build_message_history (sessionId : String) (storeFail : Bool) (lim : Nat)
    (raw : List RawEntry) : Except Unit (List (String × String)) :=
  if sessionId = "" then Except.ok []
  else
    let messages := get_messages storeFail lim raw
    match formatAll messages with
    | Except.error e => Except.error e
    | Except.ok l =>
      if (messages.take 3).any lacksContent then Except.error ()
      else Except.ok l

/-- An entry the append path itself writes: unparseable entries are tolerated,
and parsed entries always carry both a role and a content string
(redis_memory.py, lines 53-64 always store both fields). -/
def wellFormedEntry : RawEntry → Bool
  | RawEntry.unparseable => true
  | RawEntry.parsed (StoredVal.dict (some _) (some _)) => true
  | _ => false

theorem formatAll_roles {ms : List StoredVal} {l : List (String × String)}
    (h : formatAll ms = Except.ok l) :
    ∀ p ∈ l, p.1 = "user" ∨ p.1 = "assistant" := by
  induction ms generalizing l with
  | nil =>
    injection h with h
    subst h
    intro p hp
    exact absurd hp (List.not_mem_nil p)
  | cons m ms ih =>
    rw [formatAll] at h
    cases hfe : formatEntry m with
    | error e => rw [hfe] at h; exact absurd h (by simp)
    | ok o =>
      rw [hfe] at h
      cases hfa : formatAll ms with
      | error e => rw [hfa] at h; exact absurd h (by simp)
      | ok rest =>
        rw [hfa] at h
        injection h with h
        subst h
        have hrest := ih hfa
        intro p hp
        cases o with
        | none => exact hrest p hp
        | some x =>
          rcases List.mem_cons.mp hp with hx | hx
          · subst hx
            cases m with
            | nonDict => simp [formatEntry] at hfe
            | dict ro co =>
              cases ro with
              | none => simp [formatEntry] at hfe
              | some r =>
                simp only [formatEntry] at hfe
                by_cases hu : r = "user"
                · rw [if_pos hu] at hfe
                  cases co with
                  | none => exact absurd hfe (by simp)
                  | some cc =>
                    injection hfe with hfe
                    injection hfe with hfe
                    rw [← hfe]
                    exact Or.inl rfl
                · rw [if_neg hu] at hfe
                  by_cases ha : r = "assistant"
                  · rw [if_pos ha] at hfe
                    cases co with
                    | none => exact absurd hfe (by simp)
                    | some cc =>
                      injection hfe with hfe
                      injection hfe with hfe
                      rw [← hfe]
                      exact Or.inr rfl
                  · rw [if_neg ha] at hfe
                    injection hfe with hfe
                    exact absurd hfe (by simp)
          · exact hrest p hx

theorem formatAll_ok_of_good {ms : List StoredVal}
    (h : ∀ m ∈ ms, ∃ r c, m = StoredVal.dict (some r) (some c)) :
    ∃ l, formatAll ms = Except.ok l := by
  induction ms with
  | nil => exact ⟨[], rfl⟩
  | cons m ms ih =>
    obtain ⟨r, c, hm⟩ := h m (List.mem_cons_self _ _)
    obtain ⟨rest, hrest⟩ := ih fun x hx => h x (List.mem_cons_of_mem _ hx)
    subst hm
    rw [formatAll]
    have hfe : ∃ o, formatEntry (StoredVal.dict (some r) (some c)) = Except.ok o := by
      by_cases hu : r = "user"
      · exact ⟨some ("user", c), by simp [formatEntry, hu]⟩
      · by_cases ha : r = "assistant"
        · exact ⟨some ("assistant", c), by simp [formatEntry, hu, ha]⟩
        · exact ⟨none, by simp [formatEntry, hu, ha]⟩
    obtain ⟨o, ho⟩ := hfe
    rw [ho, hrest]
    exact ⟨_, rfl⟩

theorem get_messages_good {storeFail : Bool} {lim : Nat} {raw : List RawEntry}
    (hw : raw.all wellFormedEntry = true) :
    ∀ m ∈ get_messages storeFail lim raw,
      ∃ r c, m = StoredVal.dict (some r) (some c) := by
  intro m hm
  unfold get_messages at hm
  by_cases hf : storeFail = true
  · rw [if_pos hf] at hm
    exact absurd hm (List.not_mem_nil m)
  · rw [if_neg hf] at hm
    obtain ⟨e, he, hev⟩ := List.mem_filterMap.mp hm
    have hmem : e ∈ raw := List.mem_of_mem_drop he
    have := (List.all_eq_true.mp hw) e hmem
    cases e with
    | unparseable => exact absurd hev (by simp)
    | parsed v =>
      simp only [Option.some.injEq] at hev
      subst hev
      cases v with
      | nonDict => exact absurd this (by simp [wellFormedEntry])
      | dict ro co =>
        cases ro with
        | none => exact absurd this (by simp [wellFormedEntry])
        | some r =>
          cases co with
          | none => exact absurd this (by simp [wellFormedEntry])
          | some c => exact ⟨r, c, rfl⟩

/-- Claim C6 (counterexample): the claim says context construction never
raises for any stored entry content.  A stored entry that json.loads accepts
but that carries no role field makes line 139 (msg["role"]) raise a KeyError,
which build_message_history does not catch. -/
theorem C6_counterexample :
    build_message_history "s1" false 10 [RawEntry.parsed (StoredVal.dict none none)] =
      Except.error () := by
  rfl

/-- Claim C6 (amended): for every session id and limit, provided every stored
entry is either rejected by the JSON parser or is an object carrying both a
role and a content string (which is what the append path writes), building
the conversation context never raises: on a hot-store read failure it returns
the empty sequence, otherwise a well-formed list in which every returned
entry has role user or assistant (entries of other roles are dropped).  For
arbitrary stored content (a parseable non-object entry, or an object without
role, or a user/assistant object without content) the un-guarded accesses of
lines 134-148 can raise. -/
theorem C6_build_context_safe (sessionId : String) (storeFail : Bool) (lim : Nat)
    (raw : List RawEntry) (hw : raw.all wellFormedEntry = true) :
    (build_message_history sessionId true lim raw = Except.ok []) ∧
      ∃ l, build_message_history sessionId storeFail lim raw = Except.ok l ∧
        ∀ p ∈ l, p.1 = "user" ∨ p.1 = "assistant" := by
  constructor
  · by_cases hs : sessionId = ""
    · rw [build_message_history, if_pos hs]
    · rw [build_message_history, if_neg hs]
      rfl
  · by_cases hs : sessionId = ""
    · refine ⟨[], ?_, ?_⟩
      · rw [build_message_history, if_pos hs]
      · intro p hp
        exact absurd hp (List.not_mem_nil p)
    · have hgood := @get_messages_good storeFail lim raw hw
      obtain ⟨l, hl⟩ := formatAll_ok_of_good hgood
      have hnolack : ((get_messages storeFail lim raw).take 3).any lacksContent = false := by
        rw [List.any_eq_false]
        intro m hm
        obtain ⟨r, c, hrc⟩ := hgood m (List.mem_of_mem_take hm)
        subst hrc
        simp [lacksContent]
      refine ⟨l, ?_, formatAll_roles hl⟩
      rw [build_message_history, if_neg hs]
      simp only [hl, hnolack, Bool.false_eq_true, if_false]

theorem C6_build_context_safe_witness :
    (([RawEntry.parsed (StoredVal.dict (some "user") (some "hi")),
          RawEntry.parsed (StoredVal.dict (some "system") (some "x"))] :
        List RawEntry).all wellFormedEntry = true) ∧
      ((build_message_history "s1" true 5
            [RawEntry.parsed (StoredVal.dict (some "user") (some "hi")),
              RawEntry.parsed (StoredVal.dict (some "system") (some "x"))] =
          Except.ok []) ∧
        ∃ l, build_message_history "s1" false 5
              [RawEntry.parsed (StoredVal.dict (some "user") (some "hi")),
                RawEntry.parsed (StoredVal.dict (some "system") (some "x"))] =
            Except.ok l ∧
          ∀ p ∈ l, p.1 = "user" ∨ p.1 = "assistant") :=
  ⟨by decide,
    C6_build_context_safe "s1" false 5
      [RawEntry.parsed (StoredVal.dict (some "user") (some "hi")),
        RawEntry.parsed (StoredVal.dict (some "system") (some "x"))] (by decide)⟩

/-! ## The turn pipeline up to the main generation call
(src/app/services/chat_service.py, lines 123-546)

chat_stream proceeds, in order: session lookup (line 151; a missing session
yields an error event and returns), history read (line 157), persona
selection (lines 160-177, emitting the role_selected event; with several
bound personas and no continuity hit this performs the LLM ranking call of
role_selector.py lines 37-43 - a generation-backend call), the user-message
memory write (line 180), content classification (lines 183-219: on the
function-caller path the turn is rejected when the classification code is
"1", on the fallback path when the filter decision action is "block"; an
exception in either classifier is caught and the turn continues), the
optional thinking event (lines 222-225), the thinking_completed event (line
522) and finally the main generation stream call (line 533).

The classifier verdicts are inputs of the trace function: the orchestration
is specified for every verdict of the classifier collaborator (spec section
4.1 lists block among the possible actions).  The in-repository classifier
stubs restrict which verdicts actually occur - the C10 theorem proves that
classify_content never returns code "1". -/

inductive TEvent where
  | sessionMissing
  | roleSelected
  | policyViolation
  | thinking
  | thinkingCompleted
deriving DecidableEq

inductive TStep where
  | memRead
  | memWriteUser
  /-- The LLM ranking call inside persona selection (role_selector.py, 37-43),
  a generation-backend call. -/
  | rankingCall
  /-- The main generation stream call (chat_service.py, line 533). -/
  | mainStreamCall
  | ev (e : TEvent)
deriving DecidableEq

structure TurnInput where
  /-- The bound personas of the session; none models a missing session. -/
  sessionRoles : Option (List RoleRef)
  message : List Char
  history : List (List Char)
  /-- The selector instance state last_selected_role. -/
  lastSelected : Option RoleRef
  /-- Outcome of the persona-ranking backend call, if it is made. -/
  rankResp : Except Unit (List Char)
  showThinking : Bool
  /-- Whether self.function_caller initialised (chat_service.py, line 183). -/
  hasFC : Bool
  /-- Verdict of the classifier call on the function-caller path (line 186);
  none models an exception, which is caught at line 206.  With the
  in-repository FunctionCaller this is some (classify_content message). -/
  fcClassification : Option Classification
  /-- Whether self.content_filter initialised (line 212). -/
  hasCF : Bool
  /-- Decision action of the fallback filter call (line 214); none models an
  exception, caught at line 218.  The in-repository filter only produces
  pass or warn. -/
  filterAction : Option String

/-- Whether the classification stage (lines 183-219) rejects the turn: code
"1" on the function-caller path (line 196), action "block" on the fallback
path (line 215). -/
def classBlocked (inp : TurnInput) : Bool :=
  if inp.hasFC then
    match inp.fcClassification with
    | some c => c.code == "1"
    | none => false
  else if inp.hasCF then
    match inp.filterAction with
    | some a => a == "block"
    | none => false
  else false

/-- The steps of the persona-selection stage (lines 160-177): nothing when the
session has no bound personas; otherwise the ranking call when the selector
reached the LLM path, then the role_selected event. -/
def selectionSteps (inp : TurnInput) (roles : List RoleRef) : List TStep :=
  if roles.isEmpty then []
  else
    (if (select_most_relevant_role inp.message roles inp.history inp.lastSelected
          inp.rankResp).llmCalled then [TStep.rankingCall] else []) ++
      (if (select_most_relevant_role inp.message roles inp.history inp.lastSelected
          inp.rankResp).result.isSome then [TStep.ev TEvent.roleSelected] else [])

/-- The steps preceding classification: history read (line 157), persona
selection (160-177), user-message memory write (line 180). -/
def preSteps (inp : TurnInput) (roles : List RoleRef) : List TStep :=
  TStep.memRead :: selectionSteps inp roles ++ [TStep.memWriteUser]

/-- The ordered trace of the turn up to and including the main generation
stream call (chat_stream, lines 123-546). -/
def chatStreamTrace (inp : TurnInput) : List TStep :=
  match inp.sessionRoles with
  | none => [TStep.ev TEvent.sessionMissing]
  | some roles =>
    if classBlocked inp then preSteps inp roles ++ [TStep.ev TEvent.policyViolation]
    else
      preSteps inp roles ++ (if inp.showThinking then [TStep.ev TEvent.thinking] else []) ++
        [TStep.ev TEvent.thinkingCompleted, TStep.mainStreamCall]

theorem chatStreamTrace_none {inp : TurnInput} (hsr : inp.sessionRoles = none) :
    chatStreamTrace inp = [TStep.ev TEvent.sessionMissing] := by
  unfold chatStreamTrace
  rw [hsr]

theorem chatStreamTrace_some {inp : TurnInput} {roles : List RoleRef}
    (hsr : inp.sessionRoles = some roles) :
    chatStreamTrace inp =
      if classBlocked inp then preSteps inp roles ++ [TStep.ev TEvent.policyViolation]
      else
        preSteps inp roles ++
          (if inp.showThinking then [TStep.ev TEvent.thinking] else []) ++
          [TStep.ev TEvent.thinkingCompleted, TStep.mainStreamCall] := by
  unfold chatStreamTrace
  rw [hsr]

theorem notMem_selectionSteps {a : TStep} (h1 : a ≠ TStep.rankingCall)
    (h2 : a ≠ TStep.ev TEvent.roleSelected) (inp : TurnInput) (roles : List RoleRef) :
    a ∉ selectionSteps inp roles := by
  intro hm
  unfold selectionSteps at hm
  split at hm
  · simp at hm
  · rcases List.mem_append.mp hm with hx | hx
    · split at hx
      · simp at hx; exact h1 hx
      · simp at hx
    · split at hx
      · simp at hx; exact h2 hx
      · simp at hx

theorem notMem_preSteps {a : TStep} (h0 : a ≠ TStep.memRead)
    (h1 : a ≠ TStep.rankingCall) (h2 : a ≠ TStep.ev TEvent.roleSelected)
    (h3 : a ≠ TStep.memWriteUser) (inp : TurnInput) (roles : List RoleRef) :
    a ∉ preSteps inp roles := by
  intro hm
  unfold preSteps at hm
  rcases List.mem_cons.mp hm with hx | hx
  · exact h0 hx
  · rcases List.mem_append.mp hx with hy | hy
    · exact notMem_selectionSteps h1 h2 inp roles hy
    · simp at hy
      exact h3 hy

def c1RoleA : RoleRef := ⟨['a'], ['A'], []⟩

def c1RoleB : RoleRef := ⟨['b'], ['B'], []⟩

/-- A blocking turn with two bound personas and no continuity state: the
selector must consult the ranking backend before the classification stage
reaches its block verdict (fallback filter path with action block). -/
def c1Input : TurnInput :=
  { sessionRoles := some [c1RoleA, c1RoleB]
    message := ['m']
    history := []
    lastSelected := none
    rankResp := Except.ok ['z']
    showThinking := false
    hasFC := false
    fcClassification := none
    hasCF := true
    filterAction := some "block" }

/-- Claim C1 (counterexample): the claim says a blocking turn terminates with
the policy message before any generation-backend call, including the
persona-ranking call inside persona selection.  On a blocking turn with two
bound personas and no continuity hit, the ranking call (a generation-backend
call, role_selector.py lines 37-43) happens at step 3 of chat_stream, before
the classification of step 5 rejects the turn: the trace contains the
ranking call ahead of the policy-violation event. -/
theorem C1_counterexample :
    chatStreamTrace c1Input =
      [TStep.memRead, TStep.rankingCall, TStep.ev TEvent.roleSelected,
        TStep.memWriteUser, TStep.ev TEvent.policyViolation] ∧
      TStep.ev TEvent.policyViolation ∈ chatStreamTrace c1Input ∧
      TStep.rankingCall ∈ chatStreamTrace c1Input := by
  refine ⟨?_, ?_, ?_⟩ <;> decide

/-- Claim C1 (amended): for every turn whose classification yields the
blocking outcome, the turn terminates with the user-visible policy message
as its last step and the main generation stream call is never made; the
persona-ranking backend call inside persona selection, however, runs before
classification and is not prevented. -/
theorem C1_block_no_main_stream (inp : TurnInput)
    (h : TStep.ev TEvent.policyViolation ∈ chatStreamTrace inp) :
    (chatStreamTrace inp).getLast? = some (TStep.ev TEvent.policyViolation) ∧
      TStep.mainStreamCall ∉ chatStreamTrace inp := by
  cases hsr : inp.sessionRoles with
  | none =>
    rw [chatStreamTrace_none hsr] at h
    simp at h
  | some roles =>
    rw [chatStreamTrace_some hsr] at h ⊢
    by_cases hb : classBlocked inp = true
    · rw [if_pos hb] at h ⊢
      constructor
      · exact List.getLast?_concat _
      · intro hm
        rcases List.mem_append.mp hm with h2 | h2
        · exact notMem_preSteps (by simp) (by simp) (by simp) (by simp) inp roles h2
        · simp at h2
    · rw [if_neg hb] at h
      exfalso
      rcases List.mem_append.mp h with h2 | h2
      · rcases List.mem_append.mp h2 with h3 | h3
        · exact notMem_preSteps (by simp) (by simp) (by simp) (by simp) inp roles h3
        · by_cases hst : inp.showThinking = true
          · rw [if_pos hst] at h3; simp at h3
          · rw [if_neg hst] at h3; simp at h3
      · simp at h2

theorem C1_block_no_main_stream_witness :
    (TStep.ev TEvent.policyViolation ∈ chatStreamTrace c1Input) ∧
      ((chatStreamTrace c1Input).getLast? = some (TStep.ev TEvent.policyViolation) ∧
        TStep.mainStreamCall ∉ chatStreamTrace c1Input) :=
  ⟨by decide, C1_block_no_main_stream c1Input (by decide)⟩

end BaseProject
